import Mathlib

/-!
# Verification of the LDAP directory synchronization service

Shallow embedding of `api/services/ldap_service.py` together with the
persisted tables created by the migration
`2025_08_31_1000-add_ldap_tables.py` (`ldap_configs`, `ldap_users`).

Database state is modelled as lists of rows; SQLAlchemy queries
(`filter_by(...).first()`) become `List.find?` on the row list, in-place
ORM mutation of the found row becomes `updateFirst`, and `db.session.add`
becomes list append.  `db.session.commit()` is modelled by returning the
new state: every operation returns the post-commit state paired with its
result, and every failure path returns the unchanged input state (an
exception raised before the single `commit()` call leaves the database
untouched).  Timestamps (`naive_utc_now()`) are modelled by a `Nat`
parameter `now` supplied to each operation; all timestamps written during
one run carry the same value.  Network interaction with the LDAP server
(connect/search, end-user bind) is modelled by oracle parameters, since
the wire protocol is an external collaborator.
-/

namespace LdapSync

/-- One row of the `ldap_users` table (columns from the migration:
`id, tenant_id, account_id, ldap_uid, email, name, ldap_dn, enabled,
last_sync_at, created_at, updated_at`).  `account_id` is nullable. -/
structure LdapUser where
  id : String
  tenant_id : String
  account_id : Option String
  ldap_uid : String
  email : String
  name : String
  ldap_dn : String
  enabled : Bool
  last_sync_at : Nat
  created_at : Nat
  updated_at : Nat
deriving DecidableEq

/-- One row of the `ldap_configs` table (columns from the migration). -/
structure LdapConfig where
  id : String
  tenant_id : String
  enabled : Bool
  server_url : String
  bind_dn : String
  bind_password : String
  base_dn : String
  user_filter : Option String
  user_id_attribute : String
  user_email_attribute : String
  user_name_attribute : String
  sync_interval : Nat
  last_sync_at : Option Nat
  created_at : Nat
  updated_at : Nat
deriving DecidableEq

/-- Modelled from the spec: account status enumeration of the external
account subsystem (`models.account.AccountStatus`, not under `src/`);
the service only ever writes `ACTIVE`. -/
inductive AccountStatus where
  | pending
  | active
  | banned
deriving DecidableEq

/-- Modelled from the spec: tenant membership roles of the external
account subsystem (`models.account.TenantAccountRole`, not under
`src/`); `normal` is the lowest-privilege regular role, the one the
service assigns on first-time provisioning. -/
inductive TenantAccountRole where
  | owner
  | admin
  | editor
  | normal
deriving DecidableEq

/-- Modelled from the spec: the external `Account` entity referenced by
`ldap_users.account_id`; only the fields the LDAP service reads or
writes are modelled. -/
structure Account where
  id : String
  name : String
  email : String
  status : AccountStatus
deriving DecidableEq

/-- Modelled from the spec: the external tenant membership row created
on first-time provisioning (`models.account.TenantAccountJoin`). -/
structure TenantAccountJoin where
  tenant_id : String
  account_id : String
  role : TenantAccountRole
deriving DecidableEq

/-- The persistent store: the two LDAP tables plus the external account
tables the identity bridge touches.  `next_id` supplies fresh generated
primary keys (`uuid_generate_v4()` in the migration). -/
structure DB where
  ldap_configs : List LdapConfig
  ldap_users : List LdapUser
  accounts : List Account
  tenant_joins : List TenantAccountJoin
  next_id : Nat
deriving DecidableEq

/-- The exception hierarchy of `ldap_service.py`.  In the source,
`LdapConnectionError`, `LdapAuthError` and `LdapUserNotFoundError` are
subclasses of the base class `LdapServiceError`; a missing enabled
config and a failed directory search are both raised as the plain base
class `LdapServiceError` (there is no distinct config-not-found or
search-error class), so `serviceError` stands for exactly those
base-class raises. -/
inductive LdapError where
  | serviceError (msg : String)
  | connectionError (msg : String)
  | authError (msg : String)
  | userNotFoundError (msg : String)
deriving DecidableEq

/-- The dynamic class (kind) of a raised exception, used to state which
failures are distinguishable by exception type. -/
inductive ErrKind where
  | service
  | connection
  | auth
  | userNotFound
deriving DecidableEq

def errKind : LdapError → ErrKind
  | .serviceError _ => .service
  | .connectionError _ => .connection
  | .authError _ => .auth
  | .userNotFoundError _ => .userNotFound

/-- One record produced from a directory search entry: the mapped
`uid`/`email`/`name` attributes plus the entry's distinguished name, as
built in `search_ldap_users` (strings; a missing attribute yields `""`
via the `getattr(entry, attr, '')` default). -/
structure UserData where
  uid : String
  email : String
  name : String
  dn : String
deriving DecidableEq

/-- Validity test from `search_ldap_users`: `if user_data['uid'] and
user_data['email']` — both strings non-empty. -/
def validEntry (e : UserData) : Bool :=
  !(e.uid == "") && !(e.email == "")

/-- The list of records `search_ldap_users` returns for a given raw
entry list: invalid entries are logged and skipped. -/
def validRecords (es : List UserData) : List UserData :=
  es.filter validEntry

/-- Oracle describing what the directory does on one fetch:
`connectFailure` is an exception while opening/binding the admin
connection (`_create_ldap_connection`), `searchFailure` an exception
raised by `conn.search`, and `entries` a successful search result. -/
inductive FetchOutcome where
  | connectFailure (msg : String)
  | searchFailure (msg : String)
  | entries (es : List UserData)
deriving DecidableEq

/-- `search_ldap_users`: a connection failure is raised as
`LdapConnectionError` by `_create_ldap_connection` (outside the
try-block, so it propagates unchanged); an exception from the search
itself is caught and re-raised as the base class `LdapServiceError`;
otherwise the entries are mapped and filtered for validity. -/
def search_ldap_users : FetchOutcome → Except LdapError (List UserData)
  | .connectFailure m => .error (.connectionError m)
  | .searchFailure m => .error (.serviceError m)
  | .entries es => .ok (validRecords es)

/-- `filter_by(tenant_id=..., enabled=True).first()` on `ldap_configs`. -/
def configKey (tid : String) (c : LdapConfig) : Bool :=
  c.tenant_id == tid && c.enabled

/-- `LdapService.get_ldap_config`. -/
def get_ldap_config (db : DB) (tid : String) : Option LdapConfig :=
  db.ldap_configs.find? (configKey tid)

/-- `filter_by(tenant_id=..., ldap_uid=...)` on `ldap_users`. -/
def matchKey (tid uid : String) (u : LdapUser) : Bool :=
  u.tenant_id == tid && u.ldap_uid == uid

/-- Replace the first element satisfying `p` by its image under `f`;
models an in-place ORM mutation of the row returned by
`query.filter_by(...).first()`. -/
def updateFirst (p : α → Bool) (f : α → α) : List α → List α
  | [] => []
  | a :: l => if p a then f a :: l else a :: updateFirst p f l

/-- The mutation applied to an existing mirrored user for a fetched
record (`sync_ldap_users`, update branch): overwrite email/name/dn,
refresh both timestamps, and re-enable (the source only assigns
`enabled = True` when it was `False`, which has the same effect). -/
def updateExistingRow (now : Nat) (r : UserData) (u : LdapUser) : LdapUser :=
  { u with
    email := r.email
    name := r.name
    ldap_dn := r.dn
    last_sync_at := now
    updated_at := now
    enabled := true }

/-- The row created for a fetched record with no existing mirrored user
(`sync_ldap_users`, create branch); `created_at`/`updated_at` take the
server defaults at commit time. -/
def newRow (tid : String) (now : Nat) (k : Nat) (r : UserData) : LdapUser :=
  { id := "ldap-user-" ++ toString k
    tenant_id := tid
    account_id := none
    ldap_uid := r.uid
    email := r.email
    name := r.name
    ldap_dn := r.dn
    enabled := true
    last_sync_at := now
    created_at := now
    updated_at := now }

/-- Result of the first loop of `sync_ldap_users`. -/
structure SyncLoopResult where
  rows : List LdapUser
  nextId : Nat
  created : Nat
  updated : Nat
deriving DecidableEq

/-- First loop of `sync_ldap_users` (`for user_data in ldap_users`):
each fetched record either updates the first matching mirrored row in
place or appends a freshly created row.  The session query inside the
loop sees the loop's own pending mutations (SQLAlchemy autoflush), so
the fold threads the evolving row list. -/
def applyFetched (tid : String) (now : Nat) :
    List UserData → List LdapUser → Nat → Nat → Nat → SyncLoopResult
  | [], rows, k, c, u => ⟨rows, k, c, u⟩
  | r :: rest, rows, k, c, u =>
    match rows.find? (matchKey tid r.uid) with
    | some _ =>
        applyFetched tid now rest
          (updateFirst (matchKey tid r.uid) (updateExistingRow now r) rows) k c (u + 1)
    | none =>
        applyFetched tid now rest (rows ++ [newRow tid now k r]) (k + 1) (c + 1) u

/-- Result of the second loop of `sync_ldap_users`. -/
structure DisableResult where
  rows : List LdapUser
  disabled : Nat
deriving DecidableEq

/-- The mutation applied to a still-enabled row whose uid vanished from
the directory: `ldap_user.enabled = False; ldap_user.updated_at = ...`. -/
def disableRow (now : Nat) (v : LdapUser) : LdapUser :=
  { v with enabled := false, updated_at := now }

/-- Second loop of `sync_ldap_users` (`for uid in existing_uids -
current_uids`): look the row up again, and if it is still enabled set
`enabled = False`, refresh `updated_at` and count it. -/
def disableMissing (tid : String) (now : Nat) :
    List String → List LdapUser → Nat → DisableResult
  | [], rows, d => ⟨rows, d⟩
  | uid :: rest, rows, d =>
    match rows.find? (matchKey tid uid) with
    | some w =>
        if w.enabled then
          disableMissing tid now rest
            (updateFirst (matchKey tid uid) (disableRow now) rows) (d + 1)
        else disableMissing tid now rest rows d
    | none => disableMissing tid now rest rows d

/-- `current_uids = {user['uid'] for user in ldap_users}`. -/
def currentUids (records : List UserData) : List String :=
  records.map (·.uid)

/-- `existing_uids = {user.ldap_uid for user in existing_users}` where
`existing_users` is the tenant's full mirrored-user list. -/
def tenantUids (rows : List LdapUser) (tid : String) : List String :=
  (rows.filter (fun u => u.tenant_id == tid)).map (·.ldap_uid)

/-- `existing_uids - current_uids` (Python set difference; iterating the
list with possible duplicates performs the same row mutations, since a
second visit finds the row already disabled and skips it). -/
def missingUids (rows : List LdapUser) (tid : String) (records : List UserData) :
    List String :=
  (tenantUids rows tid).filter (fun uid => !((currentUids records).contains uid))

/-- `config.last_sync_at = naive_utc_now(); config.updated_at = ...` at
the end of a successful run. -/
def refreshConfig (now : Nat) (c : LdapConfig) : LdapConfig :=
  { c with last_sync_at := some now, updated_at := now }

/-- The transient stats dictionary returned by one reconciliation run. -/
structure SyncStats where
  total : Nat
  created : Nat
  updated : Nat
  disabled : Nat
deriving DecidableEq

/-- `LdapService.sync_ldap_users` (the reconciliation engine).  The
Python function performs a single `db.session.commit()` after both loops
and the config refresh; accordingly the success branch returns one
combined post-state, and both failure branches (no enabled config;
fetch failed) return the untouched input state, since the exception
propagates before any commit. -/
def sync_ldap_users (db : DB) (tid : String) (outcome : FetchOutcome) (now : Nat) :
    DB × Except LdapError SyncStats :=
  match get_ldap_config db tid with
  | none => (db, .error (.serviceError "no enabled ldap config"))
  | some _ =>
    match search_ldap_users outcome with
    | .error e => (db, .error e)
    | .ok records =>
      let r1 := applyFetched tid now records db.ldap_users db.next_id 0 0
      let r2 := disableMissing tid now (missingUids db.ldap_users tid records) r1.rows 0
      ({ db with
          ldap_users := r2.rows
          ldap_configs := updateFirst (configKey tid) (refreshConfig now) db.ldap_configs
          next_id := r1.nextId },
        .ok ⟨records.length, r1.created, r1.updated, r2.disabled⟩)

/-- `filter_by(tenant_id=..., email=..., enabled=True).first()` on
`ldap_users`, used by `authenticate_ldap_user`. -/
def authMatch (tid email : String) (u : LdapUser) : Bool :=
  u.tenant_id == tid && u.email == email && u.enabled

/-- The mutation `ldap_user.account_id = ...; ldap_user.updated_at =
naive_utc_now()` applied when linking a mirrored user to an account. -/
def linkedRow (x : LdapUser) (accountId : String) (now : Nat) : LdapUser :=
  { x with account_id := some accountId, updated_at := now }

/-- Setting `ldap_user.account_id` (the row is the ORM object found
earlier, identified by its primary key). -/
def linkAccount (db : DB) (rowId accountId : String) (now : Nat) : DB :=
  { db with
    ldap_users := updateFirst (fun x => x.id == rowId)
      (fun x => linkedRow x accountId now) db.ldap_users }

/-- `LdapService._get_or_create_local_account` (leading underscore
dropped): resolve via a non-dangling `account_id` link, else link an
existing account with the same email, else provision a new ACTIVE
account plus a tenant membership at the `normal` role and link it. -/
def get_or_create_local_account (db : DB) (u : LdapUser) (tid : String) (now : Nat) :
    DB × Account :=
  let linked : Option Account :=
    match u.account_id with
    | some aid => db.accounts.find? (fun a => a.id == aid)
    | none => none
  match linked with
  | some account => (db, account)
  | none =>
    match db.accounts.find? (fun a => a.email == u.email) with
    | some existing => (linkAccount db u.id existing.id now, existing)
    | none =>
      let account : Account :=
        { id := "account-" ++ toString db.next_id
          name := u.name
          email := u.email
          status := .active }
      let db1 : DB := { db with accounts := db.accounts ++ [account], next_id := db.next_id + 1 }
      let db2 : DB := linkAccount db1 u.id account.id now
      let db3 : DB :=
        { db2 with tenant_joins := db2.tenant_joins ++ [⟨tid, account.id, .normal⟩] }
      (db3, account)

/-- Oracle for the end-user bind `Connection(server, dn, password,
auto_bind=True)`: arguments are the config's server url, the mirrored
user's stored dn, and the supplied password; `true` means the bind
succeeded. -/
def BindOracle := String → String → String → Bool

/-- `LdapService.authenticate_ldap_user`: enabled config, enabled
mirrored user for (tenant, email), directory bind, then account
resolution via `get_or_create_local_account`. -/
def authenticate_ldap_user (db : DB) (tid email password : String)
    (bind : BindOracle) (now : Nat) : DB × Except LdapError Account :=
  match get_ldap_config db tid with
  | none => (db, .error (.serviceError "no enabled ldap config"))
  | some config =>
    match db.ldap_users.find? (authMatch tid email) with
    | none => (db, .error (.userNotFoundError "ldap user missing or disabled"))
    | some u =>
      if bind config.server_url u.ldap_dn password then
        let res := get_or_create_local_account db u tid now
        (res.1, .ok res.2)
      else
        (db, .error (.authError "ldap authentication failed"))

/-- The aggregate stats record returned by `get_sync_stats` for a tenant
with an enabled config: exactly the five fields of the source dict. -/
structure SyncStatsView where
  total_users : Nat
  enabled_users : Nat
  disabled_users : Nat
  last_sync_at : Option Nat
  sync_interval : Nat
deriving DecidableEq

/-- `LdapService.get_sync_stats`: `none` models the empty dict returned
when the tenant has no enabled config. -/
def get_sync_stats (db : DB) (tid : String) : Option SyncStatsView :=
  match get_ldap_config db tid with
  | none => none
  | some config =>
    let total := (db.ldap_users.filter (fun u => u.tenant_id == tid)).length
    let enabled := (db.ldap_users.filter (fun u => u.tenant_id == tid && u.enabled)).length
    some
      { total_users := total
        enabled_users := enabled
        disabled_users := total - enabled
        last_sync_at := config.last_sync_at
        sync_interval := config.sync_interval }

/-- A row's content with the refreshed timestamps blanked out; two row
lists with equal `stripTimes` images agree on everything except
`last_sync_at`/`updated_at`. -/
def stripTimes (u : LdapUser) : LdapUser :=
  { u with last_sync_at := 0, updated_at := 0 }

/-- The account `get_or_create_local_account` provisions on the
create path: fresh id, the mirrored user's name and email, ACTIVE. -/
def provisionedAccount (db : DB) (u : LdapUser) : Account :=
  { id := "account-" ++ toString db.next_id
    name := u.name
    email := u.email
    status := .active }

/-- The tenant membership row added on the create path: the
lowest-privilege `normal` role. -/
def provisionedJoin (db : DB) (tid : String) : TenantAccountJoin :=
  { tenant_id := tid
    account_id := "account-" ++ toString db.next_id
    role := .normal }

/-- `true` iff the mirrored row `rowId` exists and is linked to account
`accountId`. -/
def mirroredLinked (db : DB) (rowId accountId : String) : Bool :=
  match db.ldap_users.find? (fun x => x.id == rowId) with
  | some u => u.account_id == some accountId
  | none => false

/-- The composite key `(tenant_id, ldap_uid)` of a mirrored row (the
unique constraint `unique_tenant_ldap_user` of the migration). -/
def keyOf (u : LdapUser) : String × String := (u.tenant_id, u.ldap_uid)

/-! ## Concrete instances used in counterexamples and witnesses -/

/-- An enabled config for tenant `"t"`. -/
def exCfg : LdapConfig :=
  { id := "c1", tenant_id := "t", enabled := true, server_url := "ldap://srv",
    bind_dn := "cn=admin", bind_password := "pw", base_dn := "dc=x", user_filter := none,
    user_id_attribute := "uid", user_email_attribute := "mail", user_name_attribute := "cn",
    sync_interval := 30, last_sync_at := none, created_at := 0, updated_at := 0 }

/-- An enabled mirrored user `x` of tenant `"t"`, not yet linked. -/
def exRowX : LdapUser :=
  { id := "u1", tenant_id := "t", account_id := none, ldap_uid := "x", email := "x@e",
    name := "X", ldap_dn := "cn=x", enabled := true, last_sync_at := 0, created_at := 0,
    updated_at := 0 }

/-- A database with one enabled config and one mirrored user. -/
def exDb : DB :=
  { ldap_configs := [exCfg], ldap_users := [exRowX], accounts := [], tenant_joins := [],
    next_id := 0 }

/-- A one-record fetch whose uid `a` is new to the mirror. -/
def exFetch : List UserData := [{ uid := "a", email := "a@e", name := "A", dn := "cn=a" }]

/-- A fetch carrying the existing uid `x` with changed attributes. -/
def exFetchX : List UserData := [{ uid := "x", email := "x2@e", name := "X2", dn := "cn=x2" }]

/-- A fetch with one invalid record (empty uid) and one valid record. -/
def exFetchInvalid : List UserData :=
  [{ uid := "", email := "b@e", name := "B", dn := "cn=b" },
   { uid := "a", email := "a@e", name := "A", dn := "cn=a" }]

/-- A database with no config rows at all. -/
def exDbNoCfg : DB :=
  { ldap_configs := [], ldap_users := [], accounts := [], tenant_joins := [], next_id := 0 }

/-- The mirrored user `x`, disabled. -/
def exRowDisabled : LdapUser := { exRowX with enabled := false }

/-- A database whose only mirrored user for `x@e` is disabled. -/
def exDbDisabled : DB := { exDb with ldap_users := [exRowDisabled] }

/-- A database where an account with the mirrored user's email already
exists but the mirrored user is not yet linked. -/
def exAccount : Account := { id := "a9", name := "Old", email := "x@e", status := .active }

def exDbWithAccount : DB := { exDb with accounts := [exAccount] }

/-! ## Generic lemmas about `updateFirst` -/

theorem updateFirst_of_find?_none {α : Type _} {p : α → Bool} (f : α → α) :
    ∀ {l : List α}, l.find? p = none → updateFirst p f l = l := by
  intro l h
  induction l with
  | nil => rfl
  | cons a l ih =>
    cases hpa : p a with
    | true => rw [List.find?_cons_of_pos l hpa] at h; cases h
    | false =>
      rw [List.find?_cons_of_neg l (by simp [hpa])] at h
      simp [updateFirst, hpa, ih h]

theorem length_updateFirst {α : Type _} (p : α → Bool) (f : α → α) :
    ∀ l : List α, (updateFirst p f l).length = l.length := by
  intro l
  induction l with
  | nil => rfl
  | cons a l ih =>
    cases hpa : p a with
    | true => simp [updateFirst, hpa]
    | false => simp [updateFirst, hpa, ih]

theorem map_updateFirst {α β : Type _} {p : α → Bool} {f : α → α} (g : α → β)
    (hg : ∀ a, g (f a) = g a) : ∀ l : List α, (updateFirst p f l).map g = l.map g := by
  intro l
  induction l with
  | nil => rfl
  | cons a l ih =>
    cases hpa : p a with
    | true => simp [updateFirst, hpa, hg]
    | false => simp [updateFirst, hpa, ih]

theorem map_updateFirst_of_found {α β : Type _} {p : α → Bool} {f : α → α} (g : α → β)
    {l : List α} {a : α} (h : l.find? p = some a) (hg : g (f a) = g a) :
    (updateFirst p f l).map g = l.map g := by
  induction l with
  | nil => cases h
  | cons b l ih =>
    cases hpb : p b with
    | true =>
      rw [List.find?_cons_of_pos l hpb] at h
      cases h
      simp [updateFirst, hpb, hg]
    | false =>
      rw [List.find?_cons_of_neg l (by simp [hpb])] at h
      simp [updateFirst, hpb, ih h]

theorem find?_updateFirst_self {α : Type _} {p : α → Bool} {f : α → α}
    (hp : ∀ a, p (f a) = p a) : ∀ l : List α,
    (updateFirst p f l).find? p = (l.find? p).map f := by
  intro l
  induction l with
  | nil => rfl
  | cons a l ih =>
    cases hpa : p a with
    | true =>
      have h1 : updateFirst p f (a :: l) = f a :: l := by simp [updateFirst, hpa]
      rw [h1, List.find?_cons_of_pos l ((hp a).trans hpa), List.find?_cons_of_pos l hpa]
      rfl
    | false =>
      have h1 : updateFirst p f (a :: l) = a :: updateFirst p f l := by
        simp [updateFirst, hpa]
      rw [h1, List.find?_cons_of_neg _ (by simp [hpa]),
        List.find?_cons_of_neg l (by simp [hpa]), ih]

theorem find?_updateFirst_disjoint {α : Type _} {p q : α → Bool} {f : α → α}
    (hq : ∀ a, q (f a) = q a) (hpq : ∀ a, p a = true → q a = false) :
    ∀ l : List α, (updateFirst p f l).find? q = l.find? q := by
  intro l
  induction l with
  | nil => rfl
  | cons a l ih =>
    cases hpa : p a with
    | true =>
      have hqa : q a = false := hpq a hpa
      have h1 : updateFirst p f (a :: l) = f a :: l := by simp [updateFirst, hpa]
      rw [h1, List.find?_cons_of_neg l (by simp [(hq a).trans hqa]),
        List.find?_cons_of_neg l (by simp [hqa])]
    | false =>
      have h1 : updateFirst p f (a :: l) = a :: updateFirst p f l := by
        simp [updateFirst, hpa]
      rw [h1]
      cases hqa : q a with
      | true => rw [List.find?_cons_of_pos _ hqa, List.find?_cons_of_pos _ hqa]
      | false =>
        rw [List.find?_cons_of_neg _ (by simp [hqa]),
          List.find?_cons_of_neg _ (by simp [hqa]), ih]

theorem find?_updateFirst_none {α : Type _} {p q : α → Bool} {f : α → α}
    (hq : ∀ a, q (f a) = q a) :
    ∀ {l : List α}, l.find? q = none → (updateFirst p f l).find? q = none := by
  intro l h
  induction l with
  | nil => rfl
  | cons a l ih =>
    rw [List.find?_eq_none] at h
    have hqa : q a = false := by
      cases hv : q a with
      | true => exact absurd hv (h a (by simp))
      | false => rfl
    have hl : l.find? q = none := by
      rw [List.find?_eq_none]
      intro x hx
      exact h x (List.mem_cons_of_mem a hx)
    cases hpa : p a with
    | true =>
      have h1 : updateFirst p f (a :: l) = f a :: l := by simp [updateFirst, hpa]
      rw [h1, List.find?_cons_of_neg l (by simp [(hq a).trans hqa])]
      exact hl
    | false =>
      have h1 : updateFirst p f (a :: l) = a :: updateFirst p f l := by
        simp [updateFirst, hpa]
      rw [h1, List.find?_cons_of_neg _ (by simp [hqa])]
      exact ih hl

theorem countP_updateFirst {α : Type _} {p q : α → Bool} {f : α → α}
    (hq : ∀ a, q (f a) = q a) : ∀ l : List α,
    (updateFirst p f l).countP q = l.countP q := by
  intro l
  induction l with
  | nil => rfl
  | cons a l ih =>
    cases hpa : p a with
    | true => simp [updateFirst, hpa, List.countP_cons, hq]
    | false => simp [updateFirst, hpa, List.countP_cons, ih]

theorem find?_append_singleton_neg {α : Type _} {q : α → Bool} {x : α}
    (h : q x = false) (l : List α) : (l ++ [x]).find? q = l.find? q := by
  rw [List.find?_append]
  have : List.find? q [x] = none := by
    rw [List.find?_eq_none]
    intro y hy
    rw [List.mem_singleton] at hy
    subst hy
    simp [h]
  rw [this, Option.or_none]

theorem contains_iff_mem (l : List String) (a : String) :
    l.contains a = true ↔ a ∈ l := by
  simp

/-! ## Pointwise facts about the row mutations -/

theorem matchKey_updateExistingRow (tid uid : String) (now : Nat) (r : UserData)
    (a : LdapUser) : matchKey tid uid (updateExistingRow now r a) = matchKey tid uid a := rfl

theorem keyOf_updateExistingRow (now : Nat) (r : UserData) (a : LdapUser) :
    keyOf (updateExistingRow now r a) = keyOf a := rfl

theorem keyOf_newRow (tid : String) (now k : Nat) (r : UserData) :
    keyOf (newRow tid now k r) = (tid, r.uid) := rfl

theorem matchKey_newRow_self (tid : String) (now k : Nat) (r : UserData) :
    matchKey tid r.uid (newRow tid now k r) = true := by
  simp [matchKey, newRow]

theorem matchKey_newRow_of_ne {uid : String} (tid : String) (now k : Nat) {r : UserData}
    (h : r.uid ≠ uid) : matchKey tid uid (newRow tid now k r) = false := by
  simp [matchKey, newRow]
  intro h2
  exact absurd h2 h

theorem matchKey_disjoint {tid uid2 uid : String} (h : uid2 ≠ uid) :
    ∀ a, matchKey tid uid2 a = true → matchKey tid uid a = false := by
  intro a ha
  simp only [matchKey, Bool.and_eq_true, beq_iff_eq] at ha
  have huid : (a.ldap_uid == uid) = false := by
    cases hv : a.ldap_uid == uid with
    | true => exact absurd (ha.2 ▸ beq_iff_eq.mp hv) h
    | false => rfl
  simp [matchKey, huid]

theorem stripTimes_updateExistingRow {now : Nat} {r : UserData} {w : LdapUser}
    (he : w.email = r.email) (hn : w.name = r.name) (hd : w.ldap_dn = r.dn)
    (hen : w.enabled = true) :
    stripTimes (updateExistingRow now r w) = stripTimes w := by
  cases w
  simp_all [stripTimes, updateExistingRow]

theorem configKey_refreshConfig (tid : String) (now : Nat) (c : LdapConfig) :
    configKey tid (refreshConfig now c) = configKey tid c := rfl

/-! ## Lemmas about the first sync loop (`applyFetched`) -/

theorem applyFetched_nil (tid : String) (now : Nat) (rows : List LdapUser) (k c u : Nat) :
    applyFetched tid now [] rows k c u = ⟨rows, k, c, u⟩ := rfl

theorem applyFetched_cons_found {tid : String} {now : Nat} {r : UserData}
    {rest : List UserData} {rows : List LdapUser} {k c u : Nat} {w : LdapUser}
    (h : rows.find? (matchKey tid r.uid) = some w) :
    applyFetched tid now (r :: rest) rows k c u =
      applyFetched tid now rest
        (updateFirst (matchKey tid r.uid) (updateExistingRow now r) rows) k c (u + 1) := by
  simp [applyFetched, h]

theorem applyFetched_cons_none {tid : String} {now : Nat} {r : UserData}
    {rest : List UserData} {rows : List LdapUser} {k c u : Nat}
    (h : rows.find? (matchKey tid r.uid) = none) :
    applyFetched tid now (r :: rest) rows k c u =
      applyFetched tid now rest (rows ++ [newRow tid now k r]) (k + 1) (c + 1) u := by
  simp [applyFetched, h]

/-- A uid no fetched record carries keeps its first-match row (or its
absence) through the whole first loop. -/
theorem applyFetched_find?_other (tid : String) (now : Nat) {uid : String} :
    ∀ (L : List UserData) (rows : List LdapUser) (k c u : Nat),
      (∀ r ∈ L, r.uid ≠ uid) →
      (applyFetched tid now L rows k c u).rows.find? (matchKey tid uid) =
        rows.find? (matchKey tid uid) := by
  intro L
  induction L with
  | nil => intro rows k c u _; rfl
  | cons r0 rest ih =>
    intro rows k c u h
    have hr0 : r0.uid ≠ uid := h r0 (by simp)
    have hrest : ∀ x ∈ rest, x.uid ≠ uid := fun x hx => h x (by simp [hx])
    cases hf : rows.find? (matchKey tid r0.uid) with
    | some w =>
      rw [applyFetched_cons_found hf, ih _ _ _ _ hrest,
        find?_updateFirst_disjoint (matchKey_updateExistingRow tid uid now r0)
          (matchKey_disjoint hr0)]
    | none =>
      rw [applyFetched_cons_none hf, ih _ _ _ _ hrest,
        find?_append_singleton_neg (matchKey_newRow_of_ne tid now k hr0)]

/-- With pairwise-distinct fetched uids, a record whose uid already has
a mirrored row rewrites exactly that (first-matching) row in place. -/
theorem applyFetched_updates_in_place (tid : String) (now : Nat) :
    ∀ (L : List UserData) (rows : List LdapUser) (k c u : Nat) {r : UserData} {u0 : LdapUser},
      (L.map (·.uid)).Nodup → r ∈ L →
      rows.find? (matchKey tid r.uid) = some u0 →
      (applyFetched tid now L rows k c u).rows.find? (matchKey tid r.uid) =
        some (updateExistingRow now r u0) := by
  intro L
  induction L with
  | nil => intro rows k c u r u0 _ hr; exact absurd hr (by simp)
  | cons r0 rest ih =>
    intro rows k c u r u0 hnd hr hfind
    rw [List.map_cons, List.nodup_cons] at hnd
    rcases List.mem_cons.mp hr with rfl | hq
    · rw [applyFetched_cons_found hfind]
      have hother : ∀ x ∈ rest, x.uid ≠ r.uid := by
        intro x hx hEq
        exact hnd.1 (List.mem_map.mpr ⟨x, hx, hEq⟩)
      rw [applyFetched_find?_other tid now rest _ _ _ _ hother,
        find?_updateFirst_self (matchKey_updateExistingRow tid r.uid now r) rows, hfind]
      rfl
    · have hne : r0.uid ≠ r.uid := by
        intro hEq
        exact hnd.1 (hEq ▸ List.mem_map.mpr ⟨r, hq, rfl⟩)
      cases hf : rows.find? (matchKey tid r0.uid) with
      | some w =>
        rw [applyFetched_cons_found hf]
        apply ih _ _ _ _ hnd.2 hq
        rw [find?_updateFirst_disjoint (matchKey_updateExistingRow tid r.uid now r0)
          (matchKey_disjoint hne)]
        exact hfind
      | none =>
        rw [applyFetched_cons_none hf]
        apply ih _ _ _ _ hnd.2 hq
        rw [find?_append_singleton_neg (matchKey_newRow_of_ne tid now k hne)]
        exact hfind

/-- With pairwise-distinct fetched uids, a record whose uid has no
mirrored row ends the loop with exactly one freshly created row as its
first match. -/
theorem applyFetched_creates (tid : String) (now : Nat) :
    ∀ (L : List UserData) (rows : List LdapUser) (k c u : Nat) {r : UserData},
      (L.map (·.uid)).Nodup → r ∈ L →
      rows.find? (matchKey tid r.uid) = none →
      ∃ k2, (applyFetched tid now L rows k c u).rows.find? (matchKey tid r.uid) =
        some (newRow tid now k2 r) := by
  intro L
  induction L with
  | nil => intro rows k c u r _ hr; exact absurd hr (by simp)
  | cons r0 rest ih =>
    intro rows k c u r hnd hr hfind
    rw [List.map_cons, List.nodup_cons] at hnd
    rcases List.mem_cons.mp hr with rfl | hq
    · rw [applyFetched_cons_none hfind]
      refine ⟨k, ?_⟩
      have hother : ∀ x ∈ rest, x.uid ≠ r.uid := by
        intro x hx hEq
        exact hnd.1 (List.mem_map.mpr ⟨x, hx, hEq⟩)
      rw [applyFetched_find?_other tid now rest _ _ _ _ hother, List.find?_append, hfind]
      have hx : List.find? (matchKey tid r.uid) [newRow tid now k r] =
          some (newRow tid now k r) :=
        List.find?_cons_of_pos _ (matchKey_newRow_self tid now k r)
      rw [hx]
      rfl
    · have hne : r0.uid ≠ r.uid := by
        intro hEq
        exact hnd.1 (hEq ▸ List.mem_map.mpr ⟨r, hq, rfl⟩)
      cases hf : rows.find? (matchKey tid r0.uid) with
      | some w =>
        rw [applyFetched_cons_found hf]
        apply ih _ _ _ _ hnd.2 hq
        exact find?_updateFirst_none (matchKey_updateExistingRow tid r.uid now r0) hfind
      | none =>
        rw [applyFetched_cons_none hf]
        apply ih _ _ _ _ hnd.2 hq
        rw [find?_append_singleton_neg (matchKey_newRow_of_ne tid now k hne)]
        exact hfind

/-- With pairwise-distinct fetched uids, `created` counts exactly the
records with no pre-existing row and `updated` the records with one. -/
theorem applyFetched_count (tid : String) (now : Nat) :
    ∀ (L : List UserData) (rows : List LdapUser) (k c u : Nat),
      (L.map (·.uid)).Nodup →
      (applyFetched tid now L rows k c u).created =
        c + L.countP (fun q => !(rows.find? (matchKey tid q.uid)).isSome) ∧
      (applyFetched tid now L rows k c u).updated =
        u + L.countP (fun q => (rows.find? (matchKey tid q.uid)).isSome) := by
  intro L
  induction L with
  | nil => intro rows k c u _; simp [applyFetched_nil]
  | cons r0 rest ih =>
    intro rows k c u hnd
    rw [List.map_cons, List.nodup_cons] at hnd
    have hother : ∀ x ∈ rest, r0.uid ≠ x.uid := by
      intro x hx hEq
      exact hnd.1 (hEq ▸ List.mem_map.mpr ⟨x, hx, rfl⟩)
    cases hf : rows.find? (matchKey tid r0.uid) with
    | some w =>
      rw [applyFetched_cons_found hf]
      have hpreserve : ∀ x ∈ rest,
          (updateFirst (matchKey tid r0.uid) (updateExistingRow now r0) rows).find?
            (matchKey tid x.uid) = rows.find? (matchKey tid x.uid) := by
        intro x hx
        exact find?_updateFirst_disjoint (matchKey_updateExistingRow tid x.uid now r0)
          (matchKey_disjoint (hother x hx)) rows
      obtain ⟨h1, h2⟩ := ih _ k c (u + 1) hnd.2
      constructor
      · rw [h1, List.countP_cons,
          List.countP_congr (fun x hx => by rw [hpreserve x hx])]
        simp [hf]
      · rw [h2, List.countP_cons,
          List.countP_congr (fun x hx => by rw [hpreserve x hx])]
        simp [hf]
        omega
    | none =>
      rw [applyFetched_cons_none hf]
      have hpreserve : ∀ x ∈ rest,
          (rows ++ [newRow tid now k r0]).find? (matchKey tid x.uid) =
            rows.find? (matchKey tid x.uid) := by
        intro x hx
        exact find?_append_singleton_neg
          (matchKey_newRow_of_ne tid now k (hother x hx)) rows
      obtain ⟨h1, h2⟩ := ih _ (k + 1) (c + 1) u hnd.2
      constructor
      · rw [h1, List.countP_cons,
          List.countP_congr (fun x hx => by rw [hpreserve x hx])]
        simp [hf]
        omega
      · rw [h2, List.countP_cons,
          List.countP_congr (fun x hx => by rw [hpreserve x hx])]
        simp [hf]

/-- The first loop never removes rows matched by a mutation-invariant
predicate: its count can only grow (by created rows). -/
theorem applyFetched_countP_le (tid : String) (now : Nat) (q : LdapUser → Bool)
    (hq : ∀ (r : UserData) (a : LdapUser), q (updateExistingRow now r a) = q a) :
    ∀ (L : List UserData) (rows : List LdapUser) (k c u : Nat),
      rows.countP q ≤ (applyFetched tid now L rows k c u).rows.countP q := by
  intro L
  induction L with
  | nil => intro rows k c u; simp [applyFetched_nil]
  | cons r0 rest ih =>
    intro rows k c u
    cases hf : rows.find? (matchKey tid r0.uid) with
    | some w =>
      rw [applyFetched_cons_found hf]
      have h1 : rows.countP q =
          (updateFirst (matchKey tid r0.uid) (updateExistingRow now r0) rows).countP q :=
        (countP_updateFirst (hq r0) rows).symm
      rw [h1]
      exact ih _ k c (u + 1)
    | none =>
      rw [applyFetched_cons_none hf]
      have h1 : rows.countP q ≤ (rows ++ [newRow tid now k r0]).countP q := by
        rw [List.countP_append]
        omega
      exact h1.trans (ih _ (k + 1) (c + 1) u)

/-- If every fetched record carrying a given uid already has a matching
row, the loop never creates a second row for that (tenant, uid) key. -/
theorem applyFetched_countP_key (tid : String) (now : Nat) (uid : String) :
    ∀ (L : List UserData) (rows : List LdapUser) (k c u : Nat),
      (∀ r ∈ L, r.uid = uid → (rows.find? (matchKey tid uid)).isSome = true) →
      (applyFetched tid now L rows k c u).rows.countP (matchKey tid uid) =
        rows.countP (matchKey tid uid) := by
  intro L
  induction L with
  | nil => intro rows k c u _; rfl
  | cons r0 rest ih =>
    intro rows k c u hpres
    cases hf : rows.find? (matchKey tid r0.uid) with
    | some w =>
      rw [applyFetched_cons_found hf]
      rw [ih _ k c (u + 1) ?hp,
        countP_updateFirst (matchKey_updateExistingRow tid uid now r0)]
      case hp =>
        intro r hr hruid
        by_cases h0 : r0.uid = uid
        · rw [h0, find?_updateFirst_self (matchKey_updateExistingRow tid uid now r0) rows]
          cases hv : List.find? (matchKey tid uid) rows with
          | some w2 => rfl
          | none =>
            have := hpres r (List.mem_cons_of_mem r0 hr) hruid
            rw [hv] at this
            simp at this
        · rw [find?_updateFirst_disjoint (matchKey_updateExistingRow tid uid now r0)
            (matchKey_disjoint h0)]
          exact hpres r (List.mem_cons_of_mem r0 hr) hruid
    | none =>
      have hne : r0.uid ≠ uid := by
        intro h0
        have := hpres r0 (by simp) h0
        rw [← h0, hf] at this
        simp at this
      rw [applyFetched_cons_none hf]
      rw [ih _ (k + 1) (c + 1) u ?hp, List.countP_append]
      · have hz : List.countP (matchKey tid uid) [newRow tid now k r0] = 0 := by
          simp [List.countP_cons, matchKey_newRow_of_ne tid now k hne]
        rw [hz]
        omega
      case hp =>
        intro r hr hruid
        rw [find?_append_singleton_neg (matchKey_newRow_of_ne tid now k hne)]
        exact hpres r (List.mem_cons_of_mem r0 hr) hruid

/-- Replaying records whose content already matches the mirror leaves
every row unchanged apart from the refreshed timestamps, creates
nothing, and counts every record as updated. -/
theorem applyFetched_fixpoint (tid : String) (now : Nat) :
    ∀ (L : List UserData) (rows : List LdapUser) (k c u : Nat),
      (L.map (·.uid)).Nodup →
      (∀ r ∈ L, ∃ w, rows.find? (matchKey tid r.uid) = some w ∧
        w.email = r.email ∧ w.name = r.name ∧ w.ldap_dn = r.dn ∧ w.enabled = true) →
      (applyFetched tid now L rows k c u).nextId = k ∧
      (applyFetched tid now L rows k c u).created = c ∧
      (applyFetched tid now L rows k c u).updated = u + L.length ∧
      (applyFetched tid now L rows k c u).rows.map stripTimes = rows.map stripTimes := by
  intro L
  induction L with
  | nil => intro rows k c u _ _; simp [applyFetched_nil]
  | cons r0 rest ih =>
    intro rows k c u hnd hpres
    rw [List.map_cons, List.nodup_cons] at hnd
    obtain ⟨w, hw, hwe, hwn, hwd, hwen⟩ := hpres r0 (by simp)
    rw [applyFetched_cons_found hw]
    have hstrip : (updateFirst (matchKey tid r0.uid) (updateExistingRow now r0) rows).map
        stripTimes = rows.map stripTimes :=
      map_updateFirst_of_found stripTimes hw (stripTimes_updateExistingRow hwe hwn hwd hwen)
    have hpres2 : ∀ r ∈ rest, ∃ w2,
        (updateFirst (matchKey tid r0.uid) (updateExistingRow now r0) rows).find?
          (matchKey tid r.uid) = some w2 ∧
        w2.email = r.email ∧ w2.name = r.name ∧ w2.ldap_dn = r.dn ∧ w2.enabled = true := by
      intro r hr
      have hne : r0.uid ≠ r.uid := by
        intro hEq
        exact hnd.1 (hEq ▸ List.mem_map.mpr ⟨r, hr, rfl⟩)
      obtain ⟨w2, hw2, h1, h2, h3, h4⟩ := hpres r (List.mem_cons_of_mem r0 hr)
      refine ⟨w2, ?_, h1, h2, h3, h4⟩
      rw [find?_updateFirst_disjoint (matchKey_updateExistingRow tid r.uid now r0)
        (matchKey_disjoint hne)]
      exact hw2
    obtain ⟨h1, h2, h3, h4⟩ := ih _ k c (u + 1) hnd.2 hpres2
    refine ⟨h1, h2, ?_, h4.trans hstrip⟩
    rw [h3]
    simp only [List.length_cons]
    omega

/-- The first loop appends keys only for fetched uids: the key list of
the result is the old key list extended by keys of the form
`(tid, fetched uid)`. -/
theorem applyFetched_keys (tid : String) (now : Nat) :
    ∀ (L : List UserData) (rows : List LdapUser) (k c u : Nat),
      ∃ ext : List (String × String),
        (applyFetched tid now L rows k c u).rows.map keyOf = rows.map keyOf ++ ext ∧
        ∀ kk ∈ ext, kk.1 = tid ∧ kk.2 ∈ L.map (·.uid) := by
  intro L
  induction L with
  | nil =>
    intro rows k c u
    exact ⟨[], by simp [applyFetched_nil], by simp⟩
  | cons r0 rest ih =>
    intro rows k c u
    cases hf : rows.find? (matchKey tid r0.uid) with
    | some w =>
      rw [applyFetched_cons_found hf]
      obtain ⟨ext, h1, h2⟩ := ih _ k c (u + 1)
      refine ⟨ext, ?_, ?_⟩
      · rw [h1, map_updateFirst keyOf (keyOf_updateExistingRow now r0)]
      · intro kk hk
        obtain ⟨ha, hb⟩ := h2 kk hk
        exact ⟨ha, by rw [List.map_cons]; exact List.mem_cons_of_mem _ hb⟩
    | none =>
      rw [applyFetched_cons_none hf]
      obtain ⟨ext, h1, h2⟩ := ih _ (k + 1) (c + 1) u
      refine ⟨(tid, r0.uid) :: ext, ?_, ?_⟩
      · rw [h1, List.map_append]
        simp [keyOf_newRow]
      · intro kk hk
        rcases List.mem_cons.mp hk with rfl | hk2
        · exact ⟨rfl, by simp⟩
        · obtain ⟨ha, hb⟩ := h2 kk hk2
          exact ⟨ha, by rw [List.map_cons]; exact List.mem_cons_of_mem _ hb⟩

/-! ## Lemmas about the second sync loop (`disableMissing`) -/

theorem matchKey_disableRow (tid uid : String) (now : Nat) (a : LdapUser) :
    matchKey tid uid (disableRow now a) = matchKey tid uid a := rfl

theorem keyOf_disableRow (now : Nat) (a : LdapUser) :
    keyOf (disableRow now a) = keyOf a := rfl

theorem disableMissing_nil (tid : String) (now : Nat) (rows : List LdapUser) (d : Nat) :
    disableMissing tid now [] rows d = ⟨rows, d⟩ := rfl

theorem disableMissing_cons_enabled {tid : String} {now : Nat} {uid : String}
    {rest : List String} {rows : List LdapUser} {d : Nat} {w : LdapUser}
    (h : rows.find? (matchKey tid uid) = some w) (hw : w.enabled = true) :
    disableMissing tid now (uid :: rest) rows d =
      disableMissing tid now rest
        (updateFirst (matchKey tid uid) (disableRow now) rows) (d + 1) := by
  simp [disableMissing, h, hw]

theorem disableMissing_cons_disabled {tid : String} {now : Nat} {uid : String}
    {rest : List String} {rows : List LdapUser} {d : Nat} {w : LdapUser}
    (h : rows.find? (matchKey tid uid) = some w) (hw : w.enabled = false) :
    disableMissing tid now (uid :: rest) rows d = disableMissing tid now rest rows d := by
  simp [disableMissing, h, hw]

theorem disableMissing_cons_none {tid : String} {now : Nat} {uid : String}
    {rest : List String} {rows : List LdapUser} {d : Nat}
    (h : rows.find? (matchKey tid uid) = none) :
    disableMissing tid now (uid :: rest) rows d = disableMissing tid now rest rows d := by
  simp [disableMissing, h]

/-- A uid not slated for disabling keeps its first-match row through the
whole second loop. -/
theorem disableMissing_find?_other (tid : String) (now : Nat) {uid : String} :
    ∀ (U : List String) (rows : List LdapUser) (d : Nat), uid ∉ U →
      (disableMissing tid now U rows d).rows.find? (matchKey tid uid) =
        rows.find? (matchKey tid uid) := by
  intro U
  induction U with
  | nil => intro rows d _; rfl
  | cons uid0 rest ih =>
    intro rows d h
    have h0 : uid0 ≠ uid := fun hEq => h (hEq ▸ List.mem_cons_self uid0 rest)
    have hrest : uid ∉ rest := fun hm => h (List.mem_cons_of_mem _ hm)
    cases hf : rows.find? (matchKey tid uid0) with
    | some w =>
      cases hw : w.enabled with
      | true =>
        rw [disableMissing_cons_enabled hf hw, ih _ _ hrest,
          find?_updateFirst_disjoint (matchKey_disableRow tid uid now)
            (matchKey_disjoint h0)]
      | false => rw [disableMissing_cons_disabled hf hw, ih _ _ hrest]
    | none => rw [disableMissing_cons_none hf, ih _ _ hrest]

/-- The second loop never materializes a row for a key that had none. -/
theorem disableMissing_find?_none (tid : String) (now : Nat) {uid : String} :
    ∀ (U : List String) (rows : List LdapUser) (d : Nat),
      rows.find? (matchKey tid uid) = none →
      (disableMissing tid now U rows d).rows.find? (matchKey tid uid) = none := by
  intro U
  induction U with
  | nil => intro rows d h; exact h
  | cons uid0 rest ih =>
    intro rows d h
    cases hf : rows.find? (matchKey tid uid0) with
    | some w =>
      cases hw : w.enabled with
      | true =>
        rw [disableMissing_cons_enabled hf hw]
        exact ih _ _ (find?_updateFirst_none (matchKey_disableRow tid uid now) h)
      | false =>
        rw [disableMissing_cons_disabled hf hw]
        exact ih _ _ h
    | none =>
      rw [disableMissing_cons_none hf]
      exact ih _ _ h

/-- The second loop preserves the key list of the mirror verbatim. -/
theorem disableMissing_map_keyOf (tid : String) (now : Nat) :
    ∀ (U : List String) (rows : List LdapUser) (d : Nat),
      (disableMissing tid now U rows d).rows.map keyOf = rows.map keyOf := by
  intro U
  induction U with
  | nil => intro rows d; rfl
  | cons uid0 rest ih =>
    intro rows d
    cases hf : rows.find? (matchKey tid uid0) with
    | some w =>
      cases hw : w.enabled with
      | true =>
        rw [disableMissing_cons_enabled hf hw, ih _ _,
          map_updateFirst keyOf (keyOf_disableRow now)]
      | false => rw [disableMissing_cons_disabled hf hw, ih _ _]
    | none => rw [disableMissing_cons_none hf, ih _ _]

/-- The second loop preserves the count of any predicate insensitive to
the disable mutation. -/
theorem disableMissing_countP (tid : String) (now : Nat) {q : LdapUser → Bool}
    (hq : ∀ a, q (disableRow now a) = q a) :
    ∀ (U : List String) (rows : List LdapUser) (d : Nat),
      (disableMissing tid now U rows d).rows.countP q = rows.countP q := by
  intro U
  induction U with
  | nil => intro rows d; rfl
  | cons uid0 rest ih =>
    intro rows d
    cases hf : rows.find? (matchKey tid uid0) with
    | some w =>
      cases hw : w.enabled with
      | true =>
        rw [disableMissing_cons_enabled hf hw, ih _ _, countP_updateFirst hq]
      | false => rw [disableMissing_cons_disabled hf hw, ih _ _]
    | none => rw [disableMissing_cons_none hf, ih _ _]

/-- If every candidate's first match is already disabled (or absent),
the second loop mutates nothing and counts nothing. -/
theorem disableMissing_noop (tid : String) (now : Nat) :
    ∀ (U : List String) (rows : List LdapUser) (d : Nat),
      (∀ uid ∈ U, ∀ w, rows.find? (matchKey tid uid) = some w → w.enabled = false) →
      disableMissing tid now U rows d = ⟨rows, d⟩ := by
  intro U
  induction U with
  | nil => intro rows d _; rfl
  | cons uid0 rest ih =>
    intro rows d h
    cases hf : rows.find? (matchKey tid uid0) with
    | some w =>
      have hw : w.enabled = false := h uid0 (List.mem_cons_self uid0 rest) w hf
      rw [disableMissing_cons_disabled hf hw]
      exact ih _ _ (fun uid hm => h uid (List.mem_cons_of_mem _ hm))
    | none =>
      rw [disableMissing_cons_none hf]
      exact ih _ _ (fun uid hm => h uid (List.mem_cons_of_mem _ hm))

/-- A first-match row that is already disabled survives the second loop
untouched. -/
theorem disableMissing_preserves_disabled (tid : String) (now : Nat) {uid : String}
    {w : LdapUser} :
    ∀ (U : List String) (rows : List LdapUser) (d : Nat),
      rows.find? (matchKey tid uid) = some w → w.enabled = false →
      (disableMissing tid now U rows d).rows.find? (matchKey tid uid) = some w := by
  intro U
  induction U with
  | nil => intro rows d h _; exact h
  | cons uid0 rest ih =>
    intro rows d h hen
    by_cases h0 : uid0 = uid
    · subst h0
      rw [disableMissing_cons_disabled h hen]
      exact ih _ _ h hen
    · cases hf : rows.find? (matchKey tid uid0) with
      | some w2 =>
        cases hw2 : w2.enabled with
        | true =>
          rw [disableMissing_cons_enabled hf hw2]
          refine ih _ _ ?_ hen
          rw [find?_updateFirst_disjoint (matchKey_disableRow tid uid now)
            (matchKey_disjoint h0)]
          exact h
        | false =>
          rw [disableMissing_cons_disabled hf hw2]
          exact ih _ _ h hen
      | none =>
        rw [disableMissing_cons_none hf]
        exact ih _ _ h hen

/-- A listed uid whose first match is still enabled ends the loop with
exactly that row disabled and its `updated_at` refreshed — nothing else
of the row changes and the row is still present (never deleted). -/
theorem disableMissing_disables (tid : String) (now : Nat) {uid : String} {w : LdapUser} :
    ∀ (U : List String) (rows : List LdapUser) (d : Nat),
      uid ∈ U → rows.find? (matchKey tid uid) = some w → w.enabled = true →
      (disableMissing tid now U rows d).rows.find? (matchKey tid uid) =
        some (disableRow now w) := by
  intro U
  induction U with
  | nil => intro rows d hm; cases hm
  | cons uid0 rest ih =>
    intro rows d hm hfind hen
    by_cases h0 : uid0 = uid
    · subst h0
      rw [disableMissing_cons_enabled hfind hen]
      have h1 : (updateFirst (matchKey tid uid0) (disableRow now) rows).find?
          (matchKey tid uid0) = some (disableRow now w) := by
        rw [find?_updateFirst_self (matchKey_disableRow tid uid0 now) rows, hfind]
        rfl
      exact disableMissing_preserves_disabled tid now rest _ (d + 1) h1 rfl
    · have hm2 : uid ∈ rest := by
        rcases List.mem_cons.mp hm with hEq | hmem
        · exact absurd hEq.symm h0
        · exact hmem
      cases hf : rows.find? (matchKey tid uid0) with
      | some w2 =>
        cases hw2 : w2.enabled with
        | true =>
          rw [disableMissing_cons_enabled hf hw2]
          refine ih _ _ hm2 ?_ hen
          rw [find?_updateFirst_disjoint (matchKey_disableRow tid uid now)
            (matchKey_disjoint h0)]
          exact hfind
        | false =>
          rw [disableMissing_cons_disabled hf hw2]
          exact ih _ _ hm2 hfind hen
      | none =>
        rw [disableMissing_cons_none hf]
        exact ih _ _ hm2 hfind hen

/-- After the second loop, every listed uid's first match (if any) is
disabled. -/
theorem disableMissing_establishes (tid : String) (now : Nat) :
    ∀ (U : List String) (rows : List LdapUser) (d : Nat) (uid : String), uid ∈ U →
      ∀ w, (disableMissing tid now U rows d).rows.find? (matchKey tid uid) = some w →
        w.enabled = false := by
  intro U
  induction U with
  | nil => intro rows d uid hm; cases hm
  | cons uid0 rest ih =>
    intro rows d uid hm w hw
    by_cases hmem : uid ∈ rest
    · cases hf : rows.find? (matchKey tid uid0) with
      | some w0 =>
        cases hen : w0.enabled with
        | true =>
          rw [disableMissing_cons_enabled hf hen] at hw
          exact ih _ _ _ hmem w hw
        | false =>
          rw [disableMissing_cons_disabled hf hen] at hw
          exact ih _ _ _ hmem w hw
      | none =>
        rw [disableMissing_cons_none hf] at hw
        exact ih _ _ _ hmem w hw
    · have h0 : uid = uid0 := by
        rcases List.mem_cons.mp hm with hEq | hmem2
        · exact hEq
        · exact absurd hmem2 hmem
      subst h0
      cases hf : rows.find? (matchKey tid uid) with
      | some w0 =>
        cases hen : w0.enabled with
        | true =>
          rw [disableMissing_cons_enabled hf hen] at hw
          have h1 : (updateFirst (matchKey tid uid) (disableRow now) rows).find?
              (matchKey tid uid) = some (disableRow now w0) := by
            rw [find?_updateFirst_self (matchKey_disableRow tid uid now) rows, hf]
            rfl
          rw [disableMissing_preserves_disabled tid now rest _ (d + 1) h1 rfl] at hw
          cases hw
          rfl
        | false =>
          rw [disableMissing_cons_disabled hf hen] at hw
          rw [disableMissing_preserves_disabled tid now rest _ d hf hen] at hw
          cases hw
          exact hen
      | none =>
        rw [disableMissing_cons_none hf] at hw
        rw [disableMissing_find?_none tid now rest _ d hf] at hw
        cases hw

/-- With pairwise-distinct candidate uids, `disabled` counts exactly the
candidates whose first match was still enabled. -/
theorem disableMissing_count (tid : String) (now : Nat) :
    ∀ (U : List String) (rows : List LdapUser) (d : Nat), U.Nodup →
      (disableMissing tid now U rows d).disabled =
        d + U.countP (fun uid =>
          match rows.find? (matchKey tid uid) with
          | some w => w.enabled
          | none => false) := by
  intro U
  induction U with
  | nil => intro rows d _; simp [disableMissing_nil]
  | cons uid0 rest ih =>
    intro rows d hnd
    rw [List.nodup_cons] at hnd
    have hcongr : ∀ rows2 : List LdapUser,
        (∀ x ∈ rest, rows2.find? (matchKey tid x) = rows.find? (matchKey tid x)) →
        rest.countP (fun uid =>
            match rows2.find? (matchKey tid uid) with
            | some w => w.enabled
            | none => false) =
          rest.countP (fun uid =>
            match rows.find? (matchKey tid uid) with
            | some w => w.enabled
            | none => false) := by
      intro rows2 h
      refine List.countP_congr ?_
      intro x hx
      rw [h x hx]
    cases hf : rows.find? (matchKey tid uid0) with
    | some w =>
      cases hw : w.enabled with
      | true =>
        rw [disableMissing_cons_enabled hf hw, ih _ _ hnd.2, List.countP_cons]
        rw [hcongr _ ?hp]
        · simp [hf, hw]
          omega
        case hp =>
          intro x hx
          have h0 : uid0 ≠ x := fun hEq => hnd.1 (hEq ▸ hx)
          exact find?_updateFirst_disjoint (matchKey_disableRow tid x now)
            (matchKey_disjoint h0) rows
      | false =>
        rw [disableMissing_cons_disabled hf hw, ih _ _ hnd.2, List.countP_cons]
        simp [hf, hw]
    | none =>
      rw [disableMissing_cons_none hf, ih _ _ hnd.2, List.countP_cons]
      simp [hf]

/-! ## Lemmas about the reconciliation engine (`sync_ldap_users`) -/

/-- Unfolding of the success path: with an enabled config and a
successful fetch, one run commits exactly the two loops' row list plus
the refreshed config, and returns the four counters. -/
theorem sync_ldap_users_success {db : DB} {tid : String} {c : LdapConfig} (es : List UserData)
    (now : Nat) (hcfg : get_ldap_config db tid = some c) :
    sync_ldap_users db tid (.entries es) now =
      ({ db with
          ldap_users := (disableMissing tid now
            (missingUids db.ldap_users tid (validRecords es))
            (applyFetched tid now (validRecords es) db.ldap_users db.next_id 0 0).rows 0).rows
          ldap_configs := updateFirst (configKey tid) (refreshConfig now) db.ldap_configs
          next_id := (applyFetched tid now (validRecords es) db.ldap_users db.next_id 0 0).nextId },
        .ok ⟨(validRecords es).length,
          (applyFetched tid now (validRecords es) db.ldap_users db.next_id 0 0).created,
          (applyFetched tid now (validRecords es) db.ldap_users db.next_id 0 0).updated,
          (disableMissing tid now (missingUids db.ldap_users tid (validRecords es))
            (applyFetched tid now (validRecords es) db.ldap_users db.next_id 0 0).rows
            0).disabled⟩) := by
  simp only [sync_ldap_users, hcfg, search_ldap_users]

/-- The refreshed config is still the tenant's enabled config after a
successful run. -/
theorem get_ldap_config_after_sync {db : DB} {tid : String} {c : LdapConfig}
    (es : List UserData) (now : Nat) (hcfg : get_ldap_config db tid = some c) :
    get_ldap_config (sync_ldap_users db tid (.entries es) now).1 tid =
      some (refreshConfig now c) := by
  rw [sync_ldap_users_success es now hcfg]
  show (updateFirst (configKey tid) (refreshConfig now) db.ldap_configs).find?
      (configKey tid) = some (refreshConfig now c)
  rw [find?_updateFirst_self (configKey_refreshConfig tid now) db.ldap_configs]
  rw [show db.ldap_configs.find? (configKey tid) = some c from hcfg]
  rfl

theorem mem_missingUids {rows : List LdapUser} {tid : String} {L : List UserData}
    {uid : String} :
    uid ∈ missingUids rows tid L ↔ uid ∈ tenantUids rows tid ∧ uid ∉ currentUids L := by
  simp [missingUids, List.mem_filter]

theorem mem_tenantUids {rows : List LdapUser} {tid uid : String} :
    uid ∈ tenantUids rows tid ↔ ∃ u ∈ rows, u.tenant_id = tid ∧ u.ldap_uid = uid := by
  simp only [tenantUids, List.mem_map, List.mem_filter, beq_iff_eq]
  constructor
  · rintro ⟨u, ⟨hu, ht⟩, huid⟩
    exact ⟨u, hu, ht, huid⟩
  · rintro ⟨u, hu, ht, huid⟩
    exact ⟨u, ⟨hu, ht⟩, huid⟩

theorem mem_map_keyOf {rows : List LdapUser} {tid uid : String} :
    (tid, uid) ∈ rows.map keyOf ↔ ∃ u ∈ rows, u.tenant_id = tid ∧ u.ldap_uid = uid := by
  constructor
  · intro h
    obtain ⟨u, hu, hk⟩ := List.mem_map.mp h
    exact ⟨u, hu, congrArg Prod.fst hk, congrArg Prod.snd hk⟩
  · rintro ⟨u, hu, ht, huid⟩
    refine List.mem_map.mpr ⟨u, hu, ?_⟩
    show (u.tenant_id, u.ldap_uid) = (tid, uid)
    rw [ht, huid]

/-- A failed connection leaves the state untouched. -/
theorem sync_state_on_connectFailure (db : DB) (tid : String) (now : Nat) (m : String) :
    (sync_ldap_users db tid (.connectFailure m) now).1 = db := by
  unfold sync_ldap_users
  cases get_ldap_config db tid <;> rfl

/-- A failed search leaves the state untouched. -/
theorem sync_state_on_searchFailure (db : DB) (tid : String) (now : Nat) (m : String) :
    (sync_ldap_users db tid (.searchFailure m) now).1 = db := by
  unfold sync_ldap_users
  cases get_ldap_config db tid <;> rfl

theorem sync_error_on_connectFailure (db : DB) (tid : String) (now : Nat) (m : String) :
    ∃ e, (sync_ldap_users db tid (.connectFailure m) now).2 = .error e := by
  unfold sync_ldap_users
  cases get_ldap_config db tid <;> exact ⟨_, rfl⟩

theorem sync_error_on_searchFailure (db : DB) (tid : String) (now : Nat) (m : String) :
    ∃ e, (sync_ldap_users db tid (.searchFailure m) now).2 = .error e := by
  unfold sync_ldap_users
  cases get_ldap_config db tid <;> exact ⟨_, rfl⟩

/-- One reconciliation run never decreases the count of rows matched by
any predicate that is insensitive to the two row mutations: rows are
only updated in place or appended, never deleted. -/
theorem sync_countP_mono (db : DB) (tid : String) (outcome : FetchOutcome) (now : Nat)
    (q : LdapUser → Bool)
    (hq1 : ∀ (r : UserData) (a : LdapUser), q (updateExistingRow now r a) = q a)
    (hq2 : ∀ a, q (disableRow now a) = q a) :
    db.ldap_users.countP q ≤ (sync_ldap_users db tid outcome now).1.ldap_users.countP q := by
  unfold sync_ldap_users
  cases hcfg : get_ldap_config db tid with
  | none => exact Nat.le_refl _
  | some c =>
    cases outcome with
    | connectFailure m => exact Nat.le_refl _
    | searchFailure m => exact Nat.le_refl _
    | entries es =>
      show db.ldap_users.countP q ≤
        (disableMissing tid now (missingUids db.ldap_users tid (validRecords es))
          (applyFetched tid now (validRecords es) db.ldap_users db.next_id 0 0).rows
          0).rows.countP q
      rw [disableMissing_countP tid now hq2]
      exact applyFetched_countP_le tid now q hq1 _ _ _ _ _

/-- After one run, every fetched uid's first-match row carries exactly
the fetched content and is enabled (distinct fetched uids assumed). -/
theorem rows_after_run_pres (tid : String) (now1 : Nat) (L : List UserData)
    (rows0 : List LdapUser) (k0 : Nat) (hnd : (L.map (·.uid)).Nodup) :
    ∀ r ∈ L, ∃ w,
      (disableMissing tid now1 (missingUids rows0 tid L)
        (applyFetched tid now1 L rows0 k0 0 0).rows 0).rows.find? (matchKey tid r.uid) =
        some w ∧ w.email = r.email ∧ w.name = r.name ∧ w.ldap_dn = r.dn ∧
        w.enabled = true := by
  intro r hr
  have hnm : r.uid ∉ missingUids rows0 tid L := fun hm =>
    (mem_missingUids.mp hm).2 (List.mem_map.mpr ⟨r, hr, rfl⟩)
  rw [disableMissing_find?_other tid now1 _ _ 0 hnm]
  cases hf : rows0.find? (matchKey tid r.uid) with
  | some u0 =>
    refine ⟨updateExistingRow now1 r u0, ?_, rfl, rfl, rfl, rfl⟩
    exact applyFetched_updates_in_place tid now1 L rows0 k0 0 0 hnd hr hf
  | none =>
    obtain ⟨k2, hk⟩ := applyFetched_creates tid now1 L rows0 k0 0 0 hnd hr hf
    exact ⟨newRow tid now1 k2 r, hk, rfl, rfl, rfl, rfl⟩

/-- After one run, every tenant uid absent from the fetch has its
first-match row disabled. -/
theorem rows_after_run_disabled (tid : String) (now1 : Nat) (L : List UserData)
    (rows0 : List LdapUser) (k0 : Nat) :
    ∀ uid, uid ∈ tenantUids (disableMissing tid now1 (missingUids rows0 tid L)
        (applyFetched tid now1 L rows0 k0 0 0).rows 0).rows tid →
      uid ∉ currentUids L →
      ∀ w, (disableMissing tid now1 (missingUids rows0 tid L)
        (applyFetched tid now1 L rows0 k0 0 0).rows 0).rows.find? (matchKey tid uid) =
          some w → w.enabled = false := by
  intro uid hmem hnc w hw
  have hkey : (tid, uid) ∈ (disableMissing tid now1 (missingUids rows0 tid L)
      (applyFetched tid now1 L rows0 k0 0 0).rows 0).rows.map keyOf :=
    mem_map_keyOf.mpr (mem_tenantUids.mp hmem)
  rw [disableMissing_map_keyOf] at hkey
  obtain ⟨ext, hext, hextmem⟩ := applyFetched_keys tid now1 L rows0 k0 0 0
  rw [hext] at hkey
  rcases List.mem_append.mp hkey with h0 | h0
  · have ht : uid ∈ tenantUids rows0 tid := mem_tenantUids.mpr (mem_map_keyOf.mp h0)
    have hm1 : uid ∈ missingUids rows0 tid L := mem_missingUids.mpr ⟨ht, hnc⟩
    exact disableMissing_establishes tid now1 _ _ 0 uid hm1 w hw
  · obtain ⟨_, hcu⟩ := hextmem _ h0
    exact absurd hcu hnc

/-- Setting the `account_id` link rewrites exactly the (first) row with
the given primary key, leaving everything else of the row unchanged. -/
theorem linkAccount_find_self (db : DB) (rowId accountId : String) (now : Nat)
    {u : LdapUser} (hid : db.ldap_users.find? (fun x => x.id == rowId) = some u) :
    (linkAccount db rowId accountId now).ldap_users.find? (fun x => x.id == rowId) =
      some (linkedRow u accountId now) := by
  unfold linkAccount
  dsimp only
  rw [find?_updateFirst_self ?hp db.ldap_users, hid]
  · rfl
  case hp => intro a; rfl

/-- Account-bridge branch: a set, non-dangling `account_id` link is
returned as-is; nothing is written. -/
theorem goc_linked (db : DB) (u : LdapUser) (tid : String) (now : Nat)
    {aid : String} {acc : Account}
    (h1 : u.account_id = some aid)
    (h2 : db.accounts.find? (fun a => a.id == aid) = some acc) :
    get_or_create_local_account db u tid now = (db, acc) := by
  unfold get_or_create_local_account
  rw [h1]
  dsimp only
  rw [h2]

/-- Account-bridge branch: an unset or dangling link falls through to
the email lookup; a hit links that account without creating one. -/
theorem goc_email_parts (db : DB) (u : LdapUser) (tid : String) (now : Nat)
    {acc : Account}
    (hd : u.account_id = none ∨ ∃ aid, u.account_id = some aid ∧
      db.accounts.find? (fun a => a.id == aid) = none)
    (h2 : db.accounts.find? (fun a => a.email == u.email) = some acc) :
    get_or_create_local_account db u tid now = (linkAccount db u.id acc.id now, acc) := by
  rcases hd with h1 | ⟨aid, h1, hlook⟩
  · unfold get_or_create_local_account
    rw [h1]
    dsimp only
    rw [h2]
  · unfold get_or_create_local_account
    rw [h1]
    dsimp only
    rw [hlook]
    dsimp only
    rw [h2]

/-- Account-bridge branch: no usable link and no email hit provisions
exactly one new ACTIVE account, adds one `normal`-role membership, and
links the mirrored row. -/
theorem goc_create_parts (db : DB) (u : LdapUser) (tid : String) (now : Nat)
    (hid : db.ldap_users.find? (fun x => x.id == u.id) = some u)
    (hd : u.account_id = none ∨ ∃ aid, u.account_id = some aid ∧
      db.accounts.find? (fun a => a.id == aid) = none)
    (h2 : db.accounts.find? (fun a => a.email == u.email) = none) :
    (get_or_create_local_account db u tid now).2 = provisionedAccount db u ∧
    (get_or_create_local_account db u tid now).1.accounts =
      db.accounts ++ [provisionedAccount db u] ∧
    (get_or_create_local_account db u tid now).1.tenant_joins =
      db.tenant_joins ++ [provisionedJoin db tid] ∧
    (get_or_create_local_account db u tid now).1.ldap_users.find?
      (fun x => x.id == u.id) =
      some (linkedRow u (provisionedAccount db u).id now) := by
  rcases hd with h1 | ⟨aid, h1, hlook⟩
  · unfold get_or_create_local_account
    rw [h1]
    dsimp only
    rw [h2]
    dsimp only
    refine ⟨rfl, rfl, rfl, ?_⟩
    exact linkAccount_find_self _ u.id _ now hid
  · unfold get_or_create_local_account
    rw [h1]
    dsimp only
    rw [hlook]
    dsimp only
    rw [h2]
    dsimp only
    refine ⟨rfl, rfl, rfl, ?_⟩
    exact linkAccount_find_self _ u.id _ now hid

/-! ## The claims -/

/-- Claim C1: reconciliation is all-or-nothing per tenant run.  If the
remote fetch fails (connection error or search error) `sync_ldap_users`
raises and returns the input database unchanged: no mirrored row is
created, updated or disabled and the config's `last_sync_at` is
untouched.  (The source performs a single `db.session.commit()` after
both loops; in the embedding the success branch is the only exit
returning a new state, built in one piece, so commit-as-a-single-unit
on any mid-loop abort is structural.) -/
theorem C1_fetch_failure_atomic (db : DB) (tid : String) (now : Nat) (m : String) :
    (sync_ldap_users db tid (.connectFailure m) now).1 = db ∧
    (sync_ldap_users db tid (.searchFailure m) now).1 = db ∧
    (∃ e, (sync_ldap_users db tid (.connectFailure m) now).2 = .error e) ∧
    (∃ e, (sync_ldap_users db tid (.searchFailure m) now).2 = .error e) :=
  ⟨sync_state_on_connectFailure db tid now m, sync_state_on_searchFailure db tid now m,
    sync_error_on_connectFailure db tid now m, sync_error_on_searchFailure db tid now m⟩

/-- Claim C5 (counterexample): a missing enabled config and a rejected
search both raise the plain base class `LdapServiceError` — the same
exception kind — so `ConfigNotFoundError` and `SearchError` are not
distinct error kinds in the code. -/
theorem C5_counterexample :
    (sync_ldap_users exDbNoCfg "t" (.entries []) 0).2 =
      .error (.serviceError "no enabled ldap config") ∧
    (sync_ldap_users exDb "t" (.searchFailure "query rejected") 0).2 =
      .error (.serviceError "query rejected") ∧
    errKind (.serviceError "no enabled ldap config") =
      errKind (.serviceError "query rejected") :=
  ⟨rfl, rfl, rfl⟩

/-- Claim C5 (amended): reconcile raises the base service-error kind
both when no enabled config exists and when the search is rejected
(the two differ only in message); an adapter connection failure
propagates through reconcile unchanged as the distinct connection-error
kind; the connection, auth and user-not-found kinds are mutually
distinct (and distinct from the base kind). -/
theorem C5_error_kinds (db : DB) (tid : String) (now : Nat) (m : String) :
    (get_ldap_config db tid = none →
      ∀ outcome, (sync_ldap_users db tid outcome now).2 =
        .error (.serviceError "no enabled ldap config")) ∧
    ((∃ c, get_ldap_config db tid = some c) →
      (sync_ldap_users db tid (.connectFailure m) now).2 =
        .error (.connectionError m)) ∧
    ((∃ c, get_ldap_config db tid = some c) →
      (sync_ldap_users db tid (.searchFailure m) now).2 = .error (.serviceError m)) ∧
    (∀ m2, errKind (.connectionError m) ≠ errKind (.serviceError m2) ∧
      errKind (.authError m) ≠ errKind (.connectionError m2) ∧
      errKind (.userNotFoundError m) ≠ errKind (.authError m2) ∧
      errKind (.userNotFoundError m) ≠ errKind (.serviceError m2)) := by
  refine ⟨?_, ?_, ?_, ?_⟩
  · intro h outcome
    unfold sync_ldap_users
    rw [h]
  · rintro ⟨c, h⟩
    unfold sync_ldap_users
    rw [h]
    rfl
  · rintro ⟨c, h⟩
    unfold sync_ldap_users
    rw [h]
    rfl
  · intro m2
    exact ⟨fun h => ErrKind.noConfusion h, fun h => ErrKind.noConfusion h,
      fun h => ErrKind.noConfusion h, fun h => ErrKind.noConfusion h⟩

/-- Witness for the amended C5 at concrete inputs: each implication
fires at its database. -/
theorem C5_error_kinds_witness :
    (sync_ldap_users exDbNoCfg "t" (.connectFailure "down") 0).2 =
      .error (.serviceError "no enabled ldap config") ∧
    (sync_ldap_users exDb "t" (.connectFailure "down") 0).2 =
      .error (.connectionError "down") ∧
    (sync_ldap_users exDb "t" (.searchFailure "rej") 0).2 =
      .error (.serviceError "rej") :=
  ⟨(C5_error_kinds exDbNoCfg "t" 0 "down").1 rfl (.connectFailure "down"),
    (C5_error_kinds exDb "t" 0 "down").2.1 ⟨exCfg, rfl⟩,
    (C5_error_kinds exDb "t" 0 "rej").2.2.1 ⟨exCfg, rfl⟩⟩

/-- Claim C7: with an enabled config, `authenticate_ldap_user` raises
`LdapUserNotFoundError` whenever no enabled mirrored user matches
(tenant, email) — in particular a disabled mirrored user is always
rejected — for every password and uniformly in the bind oracle: the
rejection happens before any directory bind is attempted. -/
theorem C7_user_not_found (db : DB) (tid email : String) (c : LdapConfig)
    (hcfg : get_ldap_config db tid = some c)
    (hnone : db.ldap_users.find? (authMatch tid email) = none) :
    ∀ (password : String) (bind : BindOracle) (now : Nat),
      authenticate_ldap_user db tid email password bind now =
        (db, .error (.userNotFoundError "ldap user missing or disabled")) := by
  intro password bind now
  unfold authenticate_ldap_user
  rw [hcfg, hnone]

/-- Witness for C7: the only mirrored user for `x@e` is disabled and is
rejected although the bind oracle would accept any password. -/
theorem C7_witness :
    authenticate_ldap_user exDbDisabled "t" "x@e" "secret" (fun _ _ _ => true) 5 =
      (exDbDisabled, .error (.userNotFoundError "ldap user missing or disabled")) :=
  C7_user_not_found exDbDisabled "t" "x@e" exCfg rfl rfl "secret" (fun _ _ _ => true) 5

/-- Claim C8: a fetched record with empty uid or empty email is
skipped: it fails the validity test, `total` counts exactly the records
passing it, and the invalid record produces no mirror row (its uid, not
being supplied by any valid record and having no pre-existing row, has
no row after the run). -/
theorem C8_invalid_record_skipped (db : DB) (tid : String) (es : List UserData)
    (now : Nat) (c : LdapConfig) (e : UserData)
    (hcfg : get_ldap_config db tid = some c)
    (he : e ∈ es) (hinv : e.uid = "" ∨ e.email = "")
    (hnorow : db.ldap_users.find? (matchKey tid e.uid) = none)
    (hnotcur : e.uid ∉ currentUids (validRecords es)) :
    (∃ stats : SyncStats, (sync_ldap_users db tid (.entries es) now).2 = .ok stats ∧
      stats.total = es.countP validEntry) ∧
    validEntry e = false ∧
    (sync_ldap_users db tid (.entries es) now).1.ldap_users.find?
      (matchKey tid e.uid) = none := by
  rw [sync_ldap_users_success es now hcfg]
  refine ⟨⟨_, rfl, ?_⟩, ?_, ?_⟩
  · show (validRecords es).length = es.countP validEntry
    rw [validRecords, List.countP_eq_length_filter]
  · rcases hinv with h | h <;> simp [validEntry, h]
  · apply disableMissing_find?_none
    rw [applyFetched_find?_other tid now _ _ _ _ _ ?hother]
    · exact hnorow
    case hother =>
      intro r hr hEq
      exact hnotcur (hEq ▸ List.mem_map.mpr ⟨r, hr, rfl⟩)

/-- Witness for C8: the empty-uid record is skipped — `total` is 1 and
no row with uid `""` exists after the run. -/
theorem C8_witness :
    (sync_ldap_users exDb "t" (.entries exFetchInvalid) 1).1.ldap_users.find?
      (matchKey "t" "") = none :=
  (C8_invalid_record_skipped exDb "t" exFetchInvalid 1 exCfg
    { uid := "", email := "b@e", name := "B", dn := "cn=b" }
    rfl (by decide) (Or.inl rfl) rfl (by decide)).2.2

/-- Claim C10: for a tenant with an enabled config the aggregate read
returns exactly the record
`{total_users, enabled_users, disabled_users, last_sync_at,
sync_interval}`, with the two user counts scoped to the tenant's
mirrored users and `disabled_users = total_users - enabled_users`
(equivalently `enabled_users + disabled_users = total_users`). -/
theorem C10_sync_stats (db : DB) (tid : String) (c : LdapConfig)
    (hcfg : get_ldap_config db tid = some c) :
    get_sync_stats db tid = some
      { total_users := (db.ldap_users.filter (fun u => u.tenant_id == tid)).length
        enabled_users :=
          (db.ldap_users.filter (fun u => u.tenant_id == tid && u.enabled)).length
        disabled_users := (db.ldap_users.filter (fun u => u.tenant_id == tid)).length -
          (db.ldap_users.filter (fun u => u.tenant_id == tid && u.enabled)).length
        last_sync_at := c.last_sync_at
        sync_interval := c.sync_interval } ∧
    (db.ldap_users.filter (fun u => u.tenant_id == tid && u.enabled)).length ≤
      (db.ldap_users.filter (fun u => u.tenant_id == tid)).length ∧
    (db.ldap_users.filter (fun u => u.tenant_id == tid && u.enabled)).length +
      ((db.ldap_users.filter (fun u => u.tenant_id == tid)).length -
        (db.ldap_users.filter (fun u => u.tenant_id == tid && u.enabled)).length) =
      (db.ldap_users.filter (fun u => u.tenant_id == tid)).length := by
  have hswap : db.ldap_users.filter (fun u => u.tenant_id == tid && u.enabled) =
      db.ldap_users.filter (fun a => a.enabled && (a.tenant_id == tid)) :=
    List.filter_congr (fun x _ => Bool.and_comm _ _)
  have hle : (db.ldap_users.filter (fun u => u.tenant_id == tid && u.enabled)).length ≤
      (db.ldap_users.filter (fun u => u.tenant_id == tid)).length := by
    rw [hswap, ← List.filter_filter]
    exact List.length_filter_le _ _
  refine ⟨?_, hle, by omega⟩
  unfold get_sync_stats
  rw [hcfg]

/-- Witness for C10 at the one-user database. -/
theorem C10_witness :
    get_sync_stats exDb "t" = some
      { total_users := 1, enabled_users := 1, disabled_users := 0,
        last_sync_at := none, sync_interval := 30 } :=
  (C10_sync_stats exDb "t" exCfg rfl).1

/-- Claim C3: reconcile never deletes a mirrored row.  (a) For every
fetch outcome, the tenant-scoped row count never decreases.  (b) An
enabled first-match row whose uid is absent from the (valid) fetch ends
the run as exactly the same row with `enabled := false` and
`updated_at` refreshed — identity fields and `account_id` unchanged,
still queryable.  (c) The `disabled` counter counts exactly the
missing uids whose first match was still enabled. -/
theorem C3_disable_not_delete (db : DB) (tid : String) (es : List UserData) (now : Nat)
    (c : LdapConfig) (uid : String) (w : LdapUser)
    (hcfg : get_ldap_config db tid = some c)
    (hfind : db.ldap_users.find? (matchKey tid uid) = some w)
    (hen : w.enabled = true)
    (hnotcur : uid ∉ currentUids (validRecords es))
    (hndrows : (tenantUids db.ldap_users tid).Nodup) :
    (∀ (outcome : FetchOutcome) (tid2 : String),
      (db.ldap_users.filter (fun u => u.tenant_id == tid2)).length ≤
        ((sync_ldap_users db tid outcome now).1.ldap_users.filter
          (fun u => u.tenant_id == tid2)).length) ∧
    (sync_ldap_users db tid (.entries es) now).1.ldap_users.find? (matchKey tid uid) =
      some (disableRow now w) ∧
    (∃ stats, (sync_ldap_users db tid (.entries es) now).2 = .ok stats ∧
      stats.disabled = (missingUids db.ldap_users tid (validRecords es)).countP
        (fun uid2 => match db.ldap_users.find? (matchKey tid uid2) with
          | some w2 => w2.enabled
          | none => false)) := by
  have hother : ∀ r ∈ validRecords es, r.uid ≠ uid := by
    intro r hr hEq
    exact hnotcur (hEq ▸ List.mem_map.mpr ⟨r, hr, rfl⟩)
  have hAF : (applyFetched tid now (validRecords es) db.ldap_users db.next_id 0 0).rows.find?
      (matchKey tid uid) = some w := by
    rw [applyFetched_find?_other tid now _ _ _ _ _ hother]
    exact hfind
  refine ⟨?_, ?_, ?_⟩
  · intro outcome tid2
    rw [← List.countP_eq_length_filter, ← List.countP_eq_length_filter]
    exact sync_countP_mono db tid outcome now _ (fun r a => rfl) (fun a => rfl)
  · rw [sync_ldap_users_success es now hcfg]
    show (disableMissing tid now (missingUids db.ldap_users tid (validRecords es))
        (applyFetched tid now (validRecords es) db.ldap_users db.next_id 0 0).rows
        0).rows.find? (matchKey tid uid) = some (disableRow now w)
    have hmem : uid ∈ missingUids db.ldap_users tid (validRecords es) := by
      rw [mem_missingUids]
      refine ⟨?_, hnotcur⟩
      rw [mem_tenantUids]
      have hw1 := List.find?_some hfind
      have hw2 := List.mem_of_find?_eq_some hfind
      simp only [matchKey, Bool.and_eq_true, beq_iff_eq] at hw1
      exact ⟨w, hw2, hw1.1, hw1.2⟩
    exact disableMissing_disables tid now _ _ 0 hmem hAF hen
  · rw [sync_ldap_users_success es now hcfg]
    refine ⟨_, rfl, ?_⟩
    show (disableMissing tid now (missingUids db.ldap_users tid (validRecords es))
        (applyFetched tid now (validRecords es) db.ldap_users db.next_id 0 0).rows
        0).disabled = _
    have hndm : (missingUids db.ldap_users tid (validRecords es)).Nodup := by
      unfold missingUids
      exact hndrows.filter _
    rw [disableMissing_count tid now _ _ 0 hndm]
    rw [List.countP_congr ?congr]
    · exact Nat.zero_add _
    case congr =>
      intro uid2 hm2
      have h2 : uid2 ∉ currentUids (validRecords es) := (mem_missingUids.mp hm2).2
      have hpass : ∀ r ∈ validRecords es, r.uid ≠ uid2 := by
        intro r hr hEq
        exact h2 (hEq ▸ List.mem_map.mpr ⟨r, hr, rfl⟩)
      rw [applyFetched_find?_other tid now _ _ _ _ _ hpass]

/-- Witness for C3: after syncing `[a]` against a mirror holding
enabled `x`, the row `x` is exactly its old self disabled with
refreshed `updated_at`. -/
theorem C3_witness :
    (sync_ldap_users exDb "t" (.entries exFetch) 1).1.ldap_users.find?
      (matchKey "t" "x") = some (disableRow 1 exRowX) :=
  (C3_disable_not_delete exDb "t" exFetch 1 exCfg "x" exRowX rfl rfl rfl
    (by decide) (by decide)).2.1

/-- Claim C4: uid is the sole identity key.  A fetched record whose uid
already has a mirrored row updates that row in place — overwriting
email, name and distinguished name, re-enabling it — without creating a
duplicate row (the key's row count is unchanged), and the counters
satisfy `created` = number of fetched records with no pre-existing row
and `updated` = number with one (so this record, whose uid exists, is
counted in `updated`, never in `created`, re-enables included). -/
theorem C4_uid_is_identity (db : DB) (tid : String) (es : List UserData) (now : Nat)
    (c : LdapConfig) (r : UserData) (u0 : LdapUser)
    (hcfg : get_ldap_config db tid = some c)
    (hnd : ((validRecords es).map (·.uid)).Nodup)
    (hr : r ∈ validRecords es)
    (hfind : db.ldap_users.find? (matchKey tid r.uid) = some u0) :
    (sync_ldap_users db tid (.entries es) now).1.ldap_users.find? (matchKey tid r.uid) =
      some (updateExistingRow now r u0) ∧
    (sync_ldap_users db tid (.entries es) now).1.ldap_users.countP (matchKey tid r.uid) =
      db.ldap_users.countP (matchKey tid r.uid) ∧
    (∃ stats, (sync_ldap_users db tid (.entries es) now).2 = .ok stats ∧
      stats.created = (validRecords es).countP
        (fun q => !(db.ldap_users.find? (matchKey tid q.uid)).isSome) ∧
      stats.updated = (validRecords es).countP
        (fun q => (db.ldap_users.find? (matchKey tid q.uid)).isSome) ∧
      (db.ldap_users.find? (matchKey tid r.uid)).isSome = true) := by
  have hcur : r.uid ∈ currentUids (validRecords es) := List.mem_map.mpr ⟨r, hr, rfl⟩
  have hnm : r.uid ∉ missingUids db.ldap_users tid (validRecords es) := by
    intro hm
    exact (mem_missingUids.mp hm).2 hcur
  refine ⟨?_, ?_, ?_⟩
  · rw [sync_ldap_users_success es now hcfg]
    show (disableMissing tid now (missingUids db.ldap_users tid (validRecords es))
        (applyFetched tid now (validRecords es) db.ldap_users db.next_id 0 0).rows
        0).rows.find? (matchKey tid r.uid) = some (updateExistingRow now r u0)
    rw [disableMissing_find?_other tid now _ _ 0 hnm]
    exact applyFetched_updates_in_place tid now _ _ _ _ _ hnd hr hfind
  · rw [sync_ldap_users_success es now hcfg]
    show (disableMissing tid now (missingUids db.ldap_users tid (validRecords es))
        (applyFetched tid now (validRecords es) db.ldap_users db.next_id 0 0).rows
        0).rows.countP (matchKey tid r.uid) = db.ldap_users.countP (matchKey tid r.uid)
    rw [disableMissing_countP tid now (matchKey_disableRow tid r.uid now)]
    exact applyFetched_countP_key tid now r.uid _ _ _ _ _
      (fun r2 _ _ => by rw [hfind]; rfl)
  · rw [sync_ldap_users_success es now hcfg]
    refine ⟨_, rfl, ?_, ?_, ?_⟩
    · show (applyFetched tid now (validRecords es) db.ldap_users db.next_id 0 0).created = _
      rw [(applyFetched_count tid now _ _ _ 0 0 hnd).1]
      exact Nat.zero_add _
    · show (applyFetched tid now (validRecords es) db.ldap_users db.next_id 0 0).updated = _
      rw [(applyFetched_count tid now _ _ _ 0 0 hnd).2]
      exact Nat.zero_add _
    · rw [hfind]
      rfl

/-- Claim C2 (counterexample): starting from a mirror holding enabled
user `x` that is absent upstream, two runs of the same one-record fetch
give on the second run `created = 0`, `disabled = 0`, `updated = 1` —
but the tenant then has `2` existing mirrored users (`a` enabled, `x`
disabled), so `updated` does not equal the number of existing mirrored
users. -/
theorem C2_counterexample :
    (sync_ldap_users (sync_ldap_users exDb "t" (.entries exFetch) 1).1 "t"
        (.entries exFetch) 2).2 = .ok ⟨1, 0, 1, 0⟩ ∧
    ((sync_ldap_users exDb "t" (.entries exFetch) 1).1.ldap_users.filter
        (fun u => u.tenant_id == "t")).length = 2 ∧
    (1 : Nat) ≠ 2 :=
  ⟨rfl, rfl, by decide⟩

/-- Claim C2 (amended): reconcile is idempotent in the corrected sense:
with an enabled config and pairwise-distinct fetched uids, the second
of two runs with an unchanged fetch yields `created = 0`,
`disabled = 0` and `updated` equal to the number of valid fetched
records (the rows actually refreshed), and every mirrored row's content
— id, tenant, uid, email, name, distinguished name, enabled flag and
account link — is unchanged apart from the refreshed timestamps. -/
theorem C2_idempotent (db : DB) (tid : String) (es : List UserData) (now1 now2 : Nat)
    (c : LdapConfig) (hcfg : get_ldap_config db tid = some c)
    (hnd : ((validRecords es).map (·.uid)).Nodup) :
    (sync_ldap_users (sync_ldap_users db tid (.entries es) now1).1 tid
        (.entries es) now2).2 =
      .ok ⟨(validRecords es).length, 0, (validRecords es).length, 0⟩ ∧
    (sync_ldap_users (sync_ldap_users db tid (.entries es) now1).1 tid
        (.entries es) now2).1.ldap_users.map stripTimes =
      (sync_ldap_users db tid (.entries es) now1).1.ldap_users.map stripTimes := by
  have hcfg1 := get_ldap_config_after_sync es now1 hcfg
  have hs1rows : (sync_ldap_users db tid (.entries es) now1).1.ldap_users =
      (disableMissing tid now1 (missingUids db.ldap_users tid (validRecords es))
        (applyFetched tid now1 (validRecords es) db.ldap_users db.next_id 0 0).rows
        0).rows := by
    rw [sync_ldap_users_success es now1 hcfg]
  have hpres : ∀ r ∈ validRecords es, ∃ w,
      (sync_ldap_users db tid (.entries es) now1).1.ldap_users.find?
        (matchKey tid r.uid) = some w ∧
      w.email = r.email ∧ w.name = r.name ∧ w.ldap_dn = r.dn ∧ w.enabled = true := by
    rw [hs1rows]
    exact rows_after_run_pres tid now1 _ db.ldap_users db.next_id hnd
  have hdis : ∀ uid,
      uid ∈ tenantUids (sync_ldap_users db tid (.entries es) now1).1.ldap_users tid →
      uid ∉ currentUids (validRecords es) →
      ∀ w, (sync_ldap_users db tid (.entries es) now1).1.ldap_users.find?
        (matchKey tid uid) = some w → w.enabled = false := by
    rw [hs1rows]
    exact rows_after_run_disabled tid now1 _ db.ldap_users db.next_id
  obtain ⟨hA1, hA2, hA3, hA4⟩ := applyFetched_fixpoint tid now2 (validRecords es)
    (sync_ldap_users db tid (.entries es) now1).1.ldap_users
    (sync_ldap_users db tid (.entries es) now1).1.next_id 0 0 hnd hpres
  have hnoop : disableMissing tid now2
      (missingUids (sync_ldap_users db tid (.entries es) now1).1.ldap_users tid
        (validRecords es))
      (applyFetched tid now2 (validRecords es)
        (sync_ldap_users db tid (.entries es) now1).1.ldap_users
        (sync_ldap_users db tid (.entries es) now1).1.next_id 0 0).rows 0 =
      ⟨(applyFetched tid now2 (validRecords es)
        (sync_ldap_users db tid (.entries es) now1).1.ldap_users
        (sync_ldap_users db tid (.entries es) now1).1.next_id 0 0).rows, 0⟩ := by
    apply disableMissing_noop
    intro uid hm w hw
    have hmm := mem_missingUids.mp hm
    have hAF2 : (applyFetched tid now2 (validRecords es)
        (sync_ldap_users db tid (.entries es) now1).1.ldap_users
        (sync_ldap_users db tid (.entries es) now1).1.next_id 0 0).rows.find?
          (matchKey tid uid) =
        (sync_ldap_users db tid (.entries es) now1).1.ldap_users.find?
          (matchKey tid uid) := by
      apply applyFetched_find?_other
      intro r hr hEq
      exact hmm.2 (hEq ▸ List.mem_map.mpr ⟨r, hr, rfl⟩)
    rw [hAF2] at hw
    exact hdis uid hmm.1 hmm.2 w hw
  rw [sync_ldap_users_success es now2 hcfg1]
  constructor
  · dsimp only
    rw [hnoop, hA2, hA3]
    dsimp only
    rw [Nat.zero_add]
  · dsimp only
    rw [hnoop]
    exact hA4

/-- Witness for the amended C2 at the one-user database: the second run
reports `total = 1, created = 0, updated = 1, disabled = 0`. -/
theorem C2_witness :
    (sync_ldap_users (sync_ldap_users exDb "t" (.entries exFetch) 1).1 "t"
        (.entries exFetch) 2).2 = .ok ⟨1, 0, 1, 0⟩ :=
  (C2_idempotent exDb "t" exFetch 1 2 exCfg rfl (by decide)).1

/-- Witness for C4: syncing a fetch that carries the existing uid `x`
with changed attributes rewrites the row in place (re-enabled, new
email/name/dn, refreshed timestamps). -/
theorem C4_witness :
    (sync_ldap_users exDb "t" (.entries exFetchX) 1).1.ldap_users.find?
      (matchKey "t" "x") =
      some (updateExistingRow 1 { uid := "x", email := "x2@e", name := "X2", dn := "cn=x2" }
        exRowX) :=
  (C4_uid_is_identity exDb "t" exFetchX 1 exCfg
    { uid := "x", email := "x2@e", name := "X2", dn := "cn=x2" } exRowX
    rfl (by decide) (by decide) rfl).1

/-- Claim C6: on a successful directory bind, authenticate resolves the
local account in order: a set, non-dangling `account_id` link returns
that account with no state change; otherwise an account with the
mirrored user's email is linked without creating a duplicate account;
otherwise exactly one new ACTIVE account carrying the mirrored user's
name is created, a tenant membership at the lowest-privilege (`normal`)
role is added, and the user is linked — and in every path authenticate
returns an account to which the mirrored user is linked. -/
theorem C6_account_resolution (db : DB) (tid email password : String) (now : Nat)
    (bind : BindOracle) (c : LdapConfig) (u : LdapUser)
    (hcfg : get_ldap_config db tid = some c)
    (hfind : db.ldap_users.find? (authMatch tid email) = some u)
    (hid : db.ldap_users.find? (fun x => x.id == u.id) = some u)
    (hbind : bind c.server_url u.ldap_dn password = true) :
    authenticate_ldap_user db tid email password bind now =
      ((get_or_create_local_account db u tid now).1,
        .ok (get_or_create_local_account db u tid now).2) ∧
    mirroredLinked (get_or_create_local_account db u tid now).1 u.id
      (get_or_create_local_account db u tid now).2.id = true ∧
    (∀ aid acc, u.account_id = some aid →
      db.accounts.find? (fun a => a.id == aid) = some acc →
      get_or_create_local_account db u tid now = (db, acc)) ∧
    (∀ acc, (match u.account_id with
        | some aid => db.accounts.find? (fun a => a.id == aid) = none
        | none => True) →
      db.accounts.find? (fun a => a.email == u.email) = some acc →
      get_or_create_local_account db u tid now = (linkAccount db u.id acc.id now, acc) ∧
      (linkAccount db u.id acc.id now).accounts = db.accounts) ∧
    ((match u.account_id with
        | some aid => db.accounts.find? (fun a => a.id == aid) = none
        | none => True) →
      db.accounts.find? (fun a => a.email == u.email) = none →
      (get_or_create_local_account db u tid now).2 = provisionedAccount db u ∧
      (get_or_create_local_account db u tid now).1.accounts =
        db.accounts ++ [provisionedAccount db u] ∧
      (get_or_create_local_account db u tid now).1.tenant_joins =
        db.tenant_joins ++ [provisionedJoin db tid]) := by
  have hauth : authenticate_ldap_user db tid email password bind now =
      ((get_or_create_local_account db u tid now).1,
        .ok (get_or_create_local_account db u tid now).2) := by
    simp [authenticate_ldap_user, hcfg, hfind, hbind]
  refine ⟨hauth, ?_, ?_, ?_, ?_⟩
  · -- the mirrored user is linked to the returned account in every path
    cases hacc : u.account_id with
    | some aid0 =>
      cases hlook : db.accounts.find? (fun a => a.id == aid0) with
      | some acc0 =>
        rw [goc_linked db u tid now hacc hlook]
        unfold mirroredLinked
        dsimp only
        rw [hid]
        have hb := List.find?_some hlook
        simp only [beq_iff_eq] at hb
        dsimp only
        rw [hacc, hb]
        exact beq_self_eq_true _
      | none =>
        cases hmail : db.accounts.find? (fun a => a.email == u.email) with
        | some acc0 =>
          rw [goc_email_parts db u tid now (Or.inr ⟨aid0, hacc, hlook⟩) hmail]
          unfold mirroredLinked
          dsimp only
          rw [linkAccount_find_self db u.id acc0.id now hid]
          simp [linkedRow]
        | none =>
          obtain ⟨hp2, _, _, hpf⟩ :=
            goc_create_parts db u tid now hid (Or.inr ⟨aid0, hacc, hlook⟩) hmail
          unfold mirroredLinked
          rw [hpf, hp2]
          simp [linkedRow]
    | none =>
      cases hmail : db.accounts.find? (fun a => a.email == u.email) with
      | some acc0 =>
        rw [goc_email_parts db u tid now (Or.inl hacc) hmail]
        unfold mirroredLinked
        dsimp only
        rw [linkAccount_find_self db u.id acc0.id now hid]
        simp [linkedRow]
      | none =>
        obtain ⟨hp2, _, _, hpf⟩ :=
          goc_create_parts db u tid now hid (Or.inl hacc) hmail
        unfold mirroredLinked
        rw [hpf, hp2]
        simp [linkedRow]
  · -- existing non-dangling link: returned as-is, no state change
    intro aid acc h1 h2
    exact goc_linked db u tid now h1 h2
  · -- email linking: link the found account, no account created
    intro acc hdangle hmail
    have hd : u.account_id = none ∨ ∃ aid, u.account_id = some aid ∧
        db.accounts.find? (fun a => a.id == aid) = none := by
      cases hacc : u.account_id with
      | some aid0 =>
        rw [hacc] at hdangle
        exact Or.inr ⟨aid0, rfl, hdangle⟩
      | none => exact Or.inl rfl
    exact ⟨goc_email_parts db u tid now hd hmail, rfl⟩
  · -- first-time provisioning: one new ACTIVE account plus one
    -- normal-role membership, then the link
    intro hdangle hmail
    have hd : u.account_id = none ∨ ∃ aid, u.account_id = some aid ∧
        db.accounts.find? (fun a => a.id == aid) = none := by
      cases hacc : u.account_id with
      | some aid0 =>
        rw [hacc] at hdangle
        exact Or.inr ⟨aid0, rfl, hdangle⟩
      | none => exact Or.inl rfl
    obtain ⟨hp2, hpa, hpj, _⟩ := goc_create_parts db u tid now hid hd hmail
    exact ⟨hp2, hpa, hpj⟩

/-- Witness for C6 (first-time provisioning path): authenticating the
unlinked mirrored user `x@e` against a database with no accounts leaves
the user linked to the returned (freshly created) account. -/
theorem C6_witness :
    mirroredLinked (get_or_create_local_account exDb exRowX "t" 7).1 exRowX.id
      (get_or_create_local_account exDb exRowX "t" 7).2.id = true :=
  (C6_account_resolution exDb "t" "x@e" "pw" 7 (fun _ _ _ => true) exCfg exRowX
    rfl rfl rfl rfl).2.1

end LdapSync
